import Mathlib

/-!
Command livecaption: stdin audio piped to a streaming speech recogniser.

A shallow embedding of `main.go`.  The program talks to three external
endpoints (standard input, the bidirectional recognition stream, standard
error).  Every value an endpoint hands back to the program is an input of the
model, and every call the program makes on an endpoint is recorded as an
`Event`, in program order.

* the forwarding goroutine (`go func() { ... }`) is `forwarder`, a function of
  the outcomes of its successive loop iterations;
* the receive loop of `main` is `recvLoop`, a function of the successive
  outcomes of `stream.Recv()`;
* the whole program is `main`, which runs the set-up sequentially and then
  merges the events of the two tasks according to a scheduler choice list.

A finite list of outcomes describes a finite observation: when the list is
used up the task is blocked in its next call (`TaskStatus.running`).

The context deadline of line 28 is not a separate event: it shows only through
the errors the stream calls return, which are inputs here.
-/

namespace Livecaption

/-! ## Data model -/

/-- One octet of audio data. -/
abbrev Byte := Fin 256

/-- Go `error` values as far as the program tells them apart: the sentinel
`io.EOF`, and any other non-nil error (identified by a code).  A nil
error is `none : Option Error`. -/
inductive Error where
  | eof
  | other (code : Nat)
  deriving DecidableEq, Repr

/-- Values of `speechpb.RecognitionConfig_AudioEncoding`. -/
inductive AudioEncoding where
  | encodingUnspecified
  | linear16
  | flac
  | mulaw
  | amr
  | amrWb
  | oggOpus
  | speexWithHeaderByte
  deriving DecidableEq, Repr

/-- Message `speechpb.RecognitionConfig`, restricted to the fields the program sets. -/
structure RecognitionConfig where
  encoding : AudioEncoding
  sampleRateHertz : Int
  languageCode : String
  deriving DecidableEq, Repr

/-- Message `speechpb.StreamingRecognitionConfig`. -/
structure StreamingRecognitionConfig where
  config : RecognitionConfig
  singleUtterance : Bool
  interimResults : Bool
  deriving DecidableEq, Repr

/-- Message `speechpb.StreamingRecognizeRequest`: the `StreamingRequest` oneof. -/
inductive StreamingRecognizeRequest where
  | streamingConfig (c : StreamingRecognitionConfig)
  | audioContent (payload : List Byte)
  deriving DecidableEq, Repr

/-- Message `speechpb.SpeechRecognitionAlternative`.  The `float32` confidence
is carried as an uninterpreted value: the program only prints it. -/
structure SpeechRecognitionAlternative where
  transcript : String
  confidence : Nat
  deriving DecidableEq, Repr

/-- Message `speechpb.StreamingRecognitionResult`. -/
structure StreamingRecognitionResult where
  alternatives : List SpeechRecognitionAlternative
  isFinal : Bool
  stability : Nat
  deriving DecidableEq, Repr

/-- Message `google.rpc.Status`, the type of `resp.Error`. -/
structure Status where
  code : Int
  message : String
  deriving DecidableEq, Repr

/-- Message `speechpb.StreamingRecognizeResponse`; `error = none` is a nil `resp.Error`. -/
structure StreamingRecognizeResponse where
  error : Option Status
  results : List StreamingRecognitionResult
  deriving DecidableEq, Repr

/-- The lines the program writes through its loggers, one constructor per
call site.  The text layout of a line (format verbs, the `time.Now()` stamp of
`receive`) is not represented, only the values that go into it. -/
inductive LogLine where
  /-- Line 33, 37, 55: `log.Fatal(err)`. -/
  | fatalErr (e : Error)
  /-- Line 60: `sl.Println("start sending to Speech API...")`. -/
  | startSending
  /-- Line 68: `sl.Fatalf("Could not close stream: %v", err)`. -/
  | couldNotCloseStream (e : Error)
  /-- Line 73: `sl.Printf("Could not read from stdin: %v", err)`. -/
  | couldNotReadStdin (e : Error)
  /-- Line 82: `sl.Printf("Could not send audio: %v", err)`. -/
  | couldNotSendAudio (e : Error)
  /-- Line 95: `log.Fatalf("Cannot stream results: %v", err)`. -/
  | cannotStreamResults (e : Error)
  /-- Line 98: `log.Fatalf("Could not recognize: %v", err)`. -/
  | couldNotRecognize (s : Status)
  /-- Line 103: the "GOT" record with `alternate.Transcript` and `alternate.Confidence`. -/
  | got (transcript : String) (confidence : Nat)
  /-- Line 108: the time-stamped `%+v` dump of a non-final result. -/
  | receive (result : StreamingRecognitionResult)
  deriving DecidableEq, Repr

/-- The observable actions of the program. -/
inductive Event where
  /-- Line 31: `speech.NewClient(ctx)`. -/
  | newClient
  /-- Line 35: `client.StreamingRecognize(ctx)`. -/
  | streamingRecognize
  /-- Line 41: `os.Stderr.WriteString(...)`. -/
  | stderrWrite (s : String)
  /-- Line 42, 77: `stream.Send(req)`, one attempt. -/
  | send (req : StreamingRecognizeRequest)
  /-- Line 58: the `go` statement. -/
  | go
  /-- Line 64: `os.Stdin.Read(buf)`, with what it returned. -/
  | stdinRead (n : Int) (err : Option Error)
  /-- Line 67: `stream.CloseSend()`. -/
  | closeSend
  /-- Line 90: `stream.Recv()`. -/
  | recv
  /-- A line written through a logger. -/
  | log (l : LogLine)
  /-- The process ends: `os.Exit(1)` inside `Fatal`/`Fatalf`, or status 0 when `main` returns. -/
  | osExit (code : Nat)
  /-- Run-time panic of the slice expression `buf[:n]`; it ends the process. -/
  | panicSliceBounds
  deriving DecidableEq, Repr

/-- Where a task stands once the outcomes given to it are used up. -/
inductive TaskStatus where
  /-- Blocked in its next `Read` / `Recv`. -/
  | running
  /-- Left its function by `return` or `break`. -/
  | returned
  /-- Ended the process through `Fatal`/`Fatalf`. -/
  | exited
  /-- Ended the process through a run-time panic. -/
  | panicked
  deriving DecidableEq, Repr

/-! ## The forwarding goroutine (lines 58-85) -/

/-- Line 62: `buf := make([]byte, 1024)`. -/
def bufSize : Nat := 1024

/-- What one call `n, err := os.Stdin.Read(buf)` hands back: the count, the
contents of `buf` after the call, and the error. -/
structure ReadOutcome where
  n : Int
  buf : List Byte
  err : Option Error
  deriving DecidableEq, Repr

/-- The inputs of one pass through the `for` body: the outcome of the read,
the error `stream.Send` returns if the pass reaches line 77, and the error
`stream.CloseSend` returns if the pass reaches line 67. -/
structure Iteration where
  read : ReadOutcome
  sendErr : Option Error
  closeErr : Option Error
  deriving DecidableEq, Repr

/-- Go slice expression `buf[:n]`: `none` is the run-time panic raised when
`n` is negative or exceeds the capacity of `buf` (here equal to its length). -/
def sliceTo (buf : List Byte) (n : Int) : Option (List Byte) :=
  if 0 ≤ n ∧ n ≤ (buf.length : Int) then some (buf.take n.toNat) else none

/-- The `for` loop of the goroutine, lines 63-84, one list element per pass.
The payload recorded for a `Send` is the value of `buf[:n]` when the call is
made.  With the outcomes used up the loop is blocked in `Read`. -/
def forwardLoop : List Iteration → List Event × TaskStatus
  | [] => ([], TaskStatus.running)
  | it :: rest =>
    let rd := Event.stdinRead it.read.n it.read.err
    if it.read.err = some Error.eof then
      match it.closeErr with
      | some e =>
        ([rd, Event.closeSend, Event.log (LogLine.couldNotCloseStream e), Event.osExit 1],
          TaskStatus.exited)
      | none => ([rd, Event.closeSend], TaskStatus.returned)
    else
      match it.read.err with
      | some e =>
        let r := forwardLoop rest
        (rd :: Event.log (LogLine.couldNotReadStdin e) :: r.1, r.2)
      | none =>
        match sliceTo it.read.buf it.read.n with
        | none => ([rd, Event.panicSliceBounds], TaskStatus.panicked)
        | some payload =>
          let sd := Event.send (StreamingRecognizeRequest.audioContent payload)
          let r := forwardLoop rest
          match it.sendErr with
          | some e => (rd :: sd :: Event.log (LogLine.couldNotSendAudio e) :: r.1, r.2)
          | none => (rd :: sd :: r.1, r.2)

/-- The goroutine body, lines 59-84. -/
def forwarder (its : List Iteration) : List Event × TaskStatus :=
  let r := forwardLoop its
  (Event.log LogLine.startSending :: r.1, r.2)

/-! ## The receive loop (lines 89-110) -/

/-- What one call `resp, err := stream.Recv()` hands back.  `resp` is only
looked at when `err` is nil. -/
structure RecvOutcome where
  resp : StreamingRecognizeResponse
  err : Option Error
  deriving DecidableEq, Repr

/-- Lines 102-104: the inner `range result.Alternatives` loop, appending to the
lines written so far. -/
def printAlternatives : List SpeechRecognitionAlternative → List Event → List Event
  | [], out => out
  | alternate :: rest, out =>
    printAlternatives rest
      (out ++ [Event.log (LogLine.got alternate.transcript alternate.confidence)])

/-- Lines 100-109: the `range resp.Results` loop, appending to the lines written so far. -/
def printResults : List StreamingRecognitionResult → List Event → List Event
  | [], out => out
  | result :: rest, out =>
    if result.isFinal then
      printResults rest (printAlternatives result.alternatives out)
    else
      printResults rest (out ++ [Event.log (LogLine.receive result)])

/-- The `for` loop of `main`, lines 89-110, one list element per pass.  Leaving
the loop by `break` makes `main` return, which ends the process with status 0. -/
def recvLoop : List RecvOutcome → List Event × TaskStatus
  | [] => ([], TaskStatus.running)
  | o :: rest =>
    if o.err = some Error.eof then
      ([Event.recv, Event.osExit 0], TaskStatus.returned)
    else
      match o.err with
      | some e =>
        ([Event.recv, Event.log (LogLine.cannotStreamResults e), Event.osExit 1],
          TaskStatus.exited)
      | none =>
        match o.resp.error with
        | some s =>
          ([Event.recv, Event.log (LogLine.couldNotRecognize s), Event.osExit 1],
            TaskStatus.exited)
        | none =>
          let r := recvLoop rest
          (Event.recv :: printResults o.resp.results [] ++ r.1, r.2)

/-! ## The whole program (lines 26-112) -/

/-- Lines 44-52: the configuration the program sends. -/
def initialConfig : StreamingRecognitionConfig :=
  { config := { encoding := AudioEncoding.linear16, sampleRateHertz := 16000,
                languageCode := "en-US" },
    singleUtterance := false,
    interimResults := true }

/-- An event after which the process no longer exists. -/
def Event.endsProcess : Event → Bool
  | Event.osExit _ => true
  | Event.panicSliceBounds => true
  | _ => false

/-- Execution of the two tasks side by side.  Each scheduler choice lets one
task perform its next event (`true`: the forwarding goroutine, `false`: the
main goroutine); a task with no event left is blocked or has returned and the
choice is a no-op.  The trace stops at the first event that ends the process. -/
def runTasks : List Bool → List Event → List Event → List Event
  | [], _, _ => []
  | true :: sched, e :: fwd, mn =>
    if e.endsProcess then [e] else e :: runTasks sched fwd mn
  | true :: sched, [], mn => runTasks sched [] mn
  | false :: sched, fwd, e :: mn =>
    if e.endsProcess then [e] else e :: runTasks sched fwd mn
  | false :: sched, fwd, [] => runTasks sched fwd []

/-- Everything the environment decides in one run. -/
structure Env where
  /-- Error returned by `speech.NewClient`. -/
  clientErr : Option Error
  /-- Error returned by `client.StreamingRecognize`. -/
  streamErr : Option Error
  /-- Error returned by the `stream.Send` of the configuration message. -/
  configErr : Option Error
  /-- Inputs of the passes of the forwarding loop. -/
  iterations : List Iteration
  /-- Outcomes of the successive `stream.Recv` calls. -/
  recvs : List RecvOutcome
  /-- Scheduler choices after the `go` statement. -/
  schedule : List Bool

/-- Function `main`, lines 26-112: the trace of one run. -/
def main (env : Env) : List Event :=
  Event.newClient ::
  match env.clientErr with
  | some e => [Event.log (LogLine.fatalErr e), Event.osExit 1]
  | none =>
    Event.streamingRecognize ::
    match env.streamErr with
    | some e => [Event.log (LogLine.fatalErr e), Event.osExit 1]
    | none =>
      Event.stderrWrite "sending init StreamingConfig...\n" ::
      Event.send (StreamingRecognizeRequest.streamingConfig initialConfig) ::
      match env.configErr with
      | some e => [Event.log (LogLine.fatalErr e), Event.osExit 1]
      | none =>
        Event.go :: runTasks env.schedule (forwarder env.iterations).1 (recvLoop env.recvs).1

/-! ## Vocabulary for stating properties of traces -/

/-- The contract of `io.Reader` for the buffer of the program: the buffer
keeps its 1024 octets and the count is between 0 and 1024. -/
def ReadContract (o : ReadOutcome) : Prop :=
  o.buf.length = bufSize ∧ 0 ≤ o.n ∧ o.n ≤ (bufSize : Int)

instance (o : ReadOutcome) : Decidable (ReadContract o) := by
  unfold ReadContract; infer_instance

/-- The first `n` octets of the buffer after a read. -/
def chunk (o : ReadOutcome) : List Byte := o.buf.take o.n.toNat

/-- The read of this pass returned `io.EOF`. -/
def Iteration.atEof (it : Iteration) : Bool := decide (it.read.err = some Error.eof)

/-- The read of this pass returned a nil error. -/
def Iteration.readOk (it : Iteration) : Bool := decide (it.read.err = none)

/-- The passes whose read is carried out: those before the first `io.EOF`. -/
def beforeEof (its : List Iteration) : List Iteration :=
  its.takeWhile (fun it => !it.atEof)

/-- Payloads of the audio-content messages of a trace, in order. -/
def audioPayloads : List Event → List (List Byte)
  | [] => []
  | Event.send (StreamingRecognizeRequest.audioContent p) :: es => p :: audioPayloads es
  | _ :: es => audioPayloads es

/-- The messages handed to `stream.Send` in a trace, in order. -/
def sentRequests : List Event → List StreamingRecognizeRequest
  | [] => []
  | Event.send r :: es => r :: sentRequests es
  | _ :: es => sentRequests es

/-- The event is a call on the stream by the sending side (`Send` or `CloseSend`). -/
def Event.onSendSide : Event → Bool
  | Event.send _ => true
  | Event.closeSend => true
  | _ => false

/-- The event is a call `os.Stdin.Read`. -/
def Event.isRead : Event → Bool
  | Event.stdinRead _ _ => true
  | _ => false

/-- The event is a call `os.Stdin.Read` that returned a nil error. -/
def Event.isOkRead : Event → Bool
  | Event.stdinRead _ none => true
  | _ => false

/-- The event is a `stream.Send` of an audio-content message. -/
def Event.isAudioSend : Event → Bool
  | Event.send (StreamingRecognizeRequest.audioContent _) => true
  | _ => false

/-- The lines a response without error is expected to print: per result, one
"GOT" line per alternative when final, else one dump line. -/
def expectedLines (results : List StreamingRecognitionResult) : List Event :=
  results.flatMap fun result =>
    if result.isFinal then
      result.alternatives.map fun a => Event.log (LogLine.got a.transcript a.confidence)
    else [Event.log (LogLine.receive result)]

/-- A buffer of 1024 octets that starts with `data` and is zero elsewhere. -/
def bufferWith (data : List Byte) : List Byte :=
  data ++ List.replicate (bufSize - data.length) 0

/-- A pass whose read delivers `data` without error and whose send succeeds. -/
def okPass (data : List Byte) : Iteration :=
  { read := { n := data.length, buf := bufferWith data, err := none },
    sendErr := none, closeErr := none }

/-- A pass whose read reports `io.EOF` with count 0. -/
def eofPass : Iteration :=
  { read := { n := 0, buf := bufferWith [], err := some Error.eof },
    sendErr := none, closeErr := none }

/-- A pass whose read delivers `data` together with the non-EOF error `c`. -/
def errPass (c : Nat) (data : List Byte) : Iteration :=
  { read := { n := data.length, buf := bufferWith data, err := some (Error.other c) },
    sendErr := none, closeErr := none }

/-- A pass whose read delivers `data` without error and whose send fails with `e`. -/
def failedSendPass (data : List Byte) (e : Error) : Iteration :=
  { read := { n := data.length, buf := bufferWith data, err := none },
    sendErr := some e, closeErr := none }

/-- A pass whose read delivers `data` together with `io.EOF`. -/
def eofPassWith (data : List Byte) : Iteration :=
  { read := { n := data.length, buf := bufferWith data, err := some Error.eof },
    sendErr := none, closeErr := none }

/-- What a pass that reaches line 67 does after `CloseSend`: nothing more when
the call succeeds, the fatal line and `os.Exit(1)` when it fails. -/
def closeTail (it : Iteration) : List Event :=
  match it.closeErr with
  | some e => [Event.log (LogLine.couldNotCloseStream e), Event.osExit 1]
  | none => []

/-- The events expected of one pass whose read does not report `io.EOF` and
obeys the read contract. -/
def passEvents (it : Iteration) : List Event :=
  match it.read.err with
  | some e => [Event.stdinRead it.read.n (some e), Event.log (LogLine.couldNotReadStdin e)]
  | none =>
    Event.stdinRead it.read.n none ::
      Event.send (StreamingRecognizeRequest.audioContent (chunk it.read)) ::
        (match it.sendErr with
         | some e => [Event.log (LogLine.couldNotSendAudio e)]
         | none => [])

/-- A received response with a nil error carrying `results`. -/
def okResponse (results : List StreamingRecognitionResult) : RecvOutcome :=
  { resp := { error := none, results := results }, err := none }

/-- A call of `Recv` that returns the error `e`. -/
def failedRecv (e : Error) : RecvOutcome :=
  { resp := { error := none, results := [] }, err := some e }

/-- A final result with one alternative. -/
def finalHello : StreamingRecognitionResult :=
  { alternatives := [{ transcript := "hello", confidence := 97 }], isFinal := true,
    stability := 0 }

/-- An interim result with one alternative. -/
def interimHel : StreamingRecognitionResult :=
  { alternatives := [{ transcript := "hel", confidence := 0 }], isFinal := false,
    stability := 1 }

/-- A run in which set-up succeeds, stdin delivers one chunk and then io.EOF,
and the service answers with one interim result and then closes the stream. -/
def sampleEnv : Env :=
  { clientErr := none, streamErr := none, configErr := none,
    iterations := [okPass [1, 2], eofPass],
    recvs := [okResponse [interimHel], failedRecv Error.eof],
    schedule := [true, false, true, true, false, true, true, false, false, false] }

/-- A run in which opening the stream fails. -/
def brokenStreamEnv : Env :=
  { clientErr := none, streamErr := some (Error.other 14), configErr := none,
    iterations := [okPass [1, 2], eofPass],
    recvs := [okResponse [interimHel], failedRecv Error.eof],
    schedule := [true, false, true, false] }

/-! ## Lemmas on the forwarding loop -/

theorem sliceTo_of_contract (o : ReadOutcome) (h : ReadContract o) :
    sliceTo o.buf o.n = some (chunk o) := by
  obtain ⟨hl, h0, h1⟩ := h
  unfold sliceTo chunk
  rw [if_pos]
  exact ⟨h0, by rw [hl]; exact h1⟩

theorem forwardLoop_nil : forwardLoop [] = ([], TaskStatus.running) := rfl

theorem forwardLoop_cons_eof (it : Iteration) (rest : List Iteration)
    (h : it.read.err = some Error.eof) :
    forwardLoop (it :: rest) =
      (Event.stdinRead it.read.n (some Error.eof) :: Event.closeSend ::
        (match it.closeErr with
         | some e => [Event.log (LogLine.couldNotCloseStream e), Event.osExit 1]
         | none => []),
       match it.closeErr with
       | some _ => TaskStatus.exited
       | none => TaskStatus.returned) := by
  unfold forwardLoop
  simp only [h, if_true]
  cases it.closeErr <;> rfl

theorem forwardLoop_cons_err (it : Iteration) (rest : List Iteration) (c : Nat)
    (h : it.read.err = some (Error.other c)) :
    forwardLoop (it :: rest) =
      (Event.stdinRead it.read.n (some (Error.other c)) ::
        Event.log (LogLine.couldNotReadStdin (Error.other c)) :: (forwardLoop rest).1,
       (forwardLoop rest).2) := by
  conv_lhs => unfold forwardLoop
  simp [h]

theorem forwardLoop_cons_ok (it : Iteration) (rest : List Iteration)
    (h : it.read.err = none) (hc : ReadContract it.read) :
    forwardLoop (it :: rest) =
      (Event.stdinRead it.read.n none ::
        Event.send (StreamingRecognizeRequest.audioContent (chunk it.read)) ::
        ((match it.sendErr with
          | some e => [Event.log (LogLine.couldNotSendAudio e)]
          | none => []) ++ (forwardLoop rest).1),
       (forwardLoop rest).2) := by
  conv_lhs => unfold forwardLoop
  simp only [h, sliceTo_of_contract _ hc]
  cases it.sendErr <;> simp

theorem forwardLoop_append (pre rest : List Iteration)
    (hne : ∀ it ∈ pre, it.read.err ≠ some Error.eof)
    (hc : ∀ it ∈ pre, ReadContract it.read) :
    forwardLoop (pre ++ rest) =
      ((forwardLoop pre).1 ++ (forwardLoop rest).1, (forwardLoop rest).2) := by
  induction pre with
  | nil => simp [forwardLoop_nil]
  | cons it pre ih =>
    have ih1 := ih (fun x hx => hne x (List.mem_cons_of_mem _ hx))
      (fun x hx => hc x (List.mem_cons_of_mem _ hx))
    have hit := hne it (List.mem_cons_self _ _)
    have hcit := hc it (List.mem_cons_self _ _)
    rw [List.cons_append]
    cases herr : it.read.err with
    | none =>
      rw [forwardLoop_cons_ok it _ herr hcit, forwardLoop_cons_ok it _ herr hcit, ih1]
      simp
    | some e =>
      cases e with
      | eof => exact absurd herr hit
      | other c =>
        rw [forwardLoop_cons_err it _ c herr, forwardLoop_cons_err it _ c herr, ih1]
        simp

theorem audioPayloads_append (a b : List Event) :
    audioPayloads (a ++ b) = audioPayloads a ++ audioPayloads b := by
  induction a with
  | nil => rfl
  | cons e a ih =>
    cases e with
    | send r => cases r <;> simp [audioPayloads, ih]
    | _ => simp [audioPayloads, ih]

theorem audioPayloads_forwardLoop (its : List Iteration)
    (hc : ∀ it ∈ its, ReadContract it.read) :
    audioPayloads (forwardLoop its).1 =
      ((beforeEof its).filter Iteration.readOk).map (fun it => chunk it.read) := by
  induction its with
  | nil => rfl
  | cons it its ih =>
    have ih1 := ih (fun x hx => hc x (List.mem_cons_of_mem _ hx))
    have hcit := hc it (List.mem_cons_self _ _)
    cases herr : it.read.err with
    | none =>
      rw [forwardLoop_cons_ok it _ herr hcit]
      have h1 : it.atEof = false := by simp [Iteration.atEof, herr]
      have h2 : it.readOk = true := by simp [Iteration.readOk, herr]
      cases hs : it.sendErr <;>
        simp [audioPayloads, audioPayloads_append, beforeEof, List.takeWhile_cons, h1, h2] <;>
        simpa [beforeEof] using ih1
    | some e =>
      cases e with
      | eof =>
        rw [forwardLoop_cons_eof it _ herr]
        have h1 : it.atEof = true := by simp [Iteration.atEof, herr]
        cases it.closeErr <;> simp [audioPayloads, beforeEof, List.takeWhile_cons, h1]
      | other c =>
        rw [forwardLoop_cons_err it _ c herr]
        have h1 : it.atEof = false := by simp [Iteration.atEof, herr]
        have h2 : it.readOk = false := by simp [Iteration.readOk, herr]
        simp [audioPayloads, beforeEof, List.takeWhile_cons, h1, h2]
        simpa [beforeEof] using ih1

theorem forwardLoop_allOk (its : List Iteration)
    (hok : ∀ it ∈ its, it.read.err = none ∧ it.sendErr = none)
    (hc : ∀ it ∈ its, ReadContract it.read) :
    (forwardLoop its).1 = its.flatMap (fun it =>
      [Event.stdinRead it.read.n none,
       Event.send (StreamingRecognizeRequest.audioContent (chunk it.read))]) := by
  induction its with
  | nil => rfl
  | cons it its ih =>
    have ih1 := ih (fun x hx => hok x (List.mem_cons_of_mem _ hx))
      (fun x hx => hc x (List.mem_cons_of_mem _ hx))
    obtain ⟨h1, h2⟩ := hok it (List.mem_cons_self _ _)
    rw [forwardLoop_cons_ok it _ h1 (hc it (List.mem_cons_self _ _)), h2]
    simp [ih1]

theorem readContract_okPass (data : List Byte) (h : data.length ≤ bufSize) :
    ReadContract (okPass data).read := by
  refine ⟨?_, ?_, ?_⟩
  · simp only [okPass, bufferWith, List.length_append, List.length_replicate]
    omega
  · simp [okPass]
  · simp only [okPass]
    exact_mod_cast h

theorem readContract_eofPass : ReadContract eofPass.read := by
  refine ⟨?_, ?_, ?_⟩
  · simp only [eofPass, bufferWith, List.nil_append, List.length_replicate, List.length_nil]
    omega
  · simp [eofPass]
  · simp only [eofPass]
    exact_mod_cast Nat.zero_le bufSize

theorem readContract_bufferWith (data : List Byte) (err : Option Error)
    (h : data.length ≤ bufSize) :
    ReadContract { n := data.length, buf := bufferWith data, err := err } := by
  refine ⟨?_, ?_, ?_⟩
  · simp only [bufferWith, List.length_append, List.length_replicate]
    omega
  · simp
  · show (data.length : Int) ≤ (bufSize : Int)
    exact_mod_cast h

theorem forwardLoop_noEof (its : List Iteration)
    (hne : ∀ it ∈ its, it.read.err ≠ some Error.eof)
    (hc : ∀ it ∈ its, ReadContract it.read) :
    forwardLoop its = (its.flatMap passEvents, TaskStatus.running) := by
  induction its with
  | nil => rfl
  | cons it its ih =>
    have ih1 := ih (fun x hx => hne x (List.mem_cons_of_mem _ hx))
      (fun x hx => hc x (List.mem_cons_of_mem _ hx))
    have hit := hne it (List.mem_cons_self _ _)
    have hcit := hc it (List.mem_cons_self _ _)
    cases herr : it.read.err with
    | none =>
      rw [forwardLoop_cons_ok it _ herr hcit, ih1]
      simp [passEvents, herr]
    | some e =>
      cases e with
      | eof => exact absurd herr hit
      | other c =>
        rw [forwardLoop_cons_err it _ c herr, ih1]
        simp [passEvents, herr]

theorem forwardLoop_split (pre : List Iteration) (last : Iteration) (post : List Iteration)
    (hne : ∀ it ∈ pre, it.read.err ≠ some Error.eof)
    (hc : ∀ it ∈ pre, ReadContract it.read)
    (heof : last.read.err = some Error.eof) :
    forwardLoop (pre ++ last :: post) =
      (pre.flatMap passEvents ++
          Event.stdinRead last.read.n (some Error.eof) :: Event.closeSend :: closeTail last,
        match last.closeErr with
        | some _ => TaskStatus.exited
        | none => TaskStatus.returned) := by
  rw [forwardLoop_append pre _ hne hc, forwardLoop_cons_eof last post heof,
    forwardLoop_noEof pre hne hc]
  rfl

theorem firstEof_split (its : List Iteration) :
    (∀ it ∈ its, it.read.err ≠ some Error.eof) ∨
    ∃ pre last post, its = pre ++ last :: post ∧
      (∀ it ∈ pre, it.read.err ≠ some Error.eof) ∧ last.read.err = some Error.eof := by
  induction its with
  | nil => left; simp
  | cons it its ih =>
    by_cases h : it.read.err = some Error.eof
    · right
      exact ⟨[], it, its, rfl, by simp, h⟩
    · rcases ih with ih | ⟨pre, last, post, rfl, hpre, hlast⟩
      · left
        intro x hx
        rcases List.mem_cons.1 hx with rfl | hx
        · exact h
        · exact ih x hx
      · right
        refine ⟨it :: pre, last, post, rfl, ?_, hlast⟩
        intro x hx
        rcases List.mem_cons.1 hx with rfl | hx
        · exact h
        · exact hpre x hx

theorem closeSend_not_mem_passEvents (it : Iteration) : Event.closeSend ∉ passEvents it := by
  unfold passEvents
  cases it.read.err <;> cases it.sendErr <;> simp

theorem eofRead_not_mem_passEvents (it : Iteration) (h : it.read.err ≠ some Error.eof)
    (n : Int) : Event.stdinRead n (some Error.eof) ∉ passEvents it := by
  unfold passEvents
  cases herr : it.read.err with
  | none => cases it.sendErr <;> simp
  | some e =>
    have : e ≠ Error.eof := fun he => h (by rw [herr, he])
    simp
    intro _ he
    exact this he.symm

theorem closeTail_quiet (it : Iteration) :
    ∀ x ∈ closeTail it, x.isRead = false ∧ x.onSendSide = false := by
  unfold closeTail
  cases it.closeErr <;> simp [Event.isRead, Event.onSendSide]

theorem sendCount_eq_okReadCount (its : List Iteration)
    (hc : ∀ it ∈ its, ReadContract it.read) :
    ((forwardLoop its).1.filter Event.isAudioSend).length =
      ((forwardLoop its).1.filter Event.isOkRead).length := by
  induction its with
  | nil => rfl
  | cons it its ih =>
    have ih1 := ih (fun x hx => hc x (List.mem_cons_of_mem _ hx))
    have hcit := hc it (List.mem_cons_self _ _)
    cases herr : it.read.err with
    | none =>
      rw [forwardLoop_cons_ok it _ herr hcit]
      cases it.sendErr <;>
        simp [List.filter_cons, Event.isAudioSend, Event.isOkRead, ih1]
    | some e =>
      cases e with
      | eof =>
        rw [forwardLoop_cons_eof it _ herr]
        cases it.closeErr <;> simp [List.filter_cons, Event.isAudioSend, Event.isOkRead]
      | other c =>
        rw [forwardLoop_cons_err it _ c herr]
        simp [List.filter_cons, Event.isAudioSend, Event.isOkRead, ih1]

theorem audioPayloads_length_le (its : List Iteration)
    (hl : ∀ it ∈ its, it.read.buf.length = bufSize) :
    ∀ p ∈ audioPayloads (forwardLoop its).1, p.length ≤ bufSize := by
  induction its with
  | nil => intro p hp; simp [forwardLoop, audioPayloads] at hp
  | cons it its ih =>
    have ih1 := ih (fun x hx => hl x (List.mem_cons_of_mem _ hx))
    have hlit := hl it (List.mem_cons_self _ _)
    intro p hp
    unfold forwardLoop at hp
    cases herr : it.read.err with
    | some e =>
      cases e with
      | eof =>
        simp only [herr, if_true] at hp
        cases hce : it.closeErr <;> simp [hce, audioPayloads] at hp
      | other c =>
        simp [herr, audioPayloads] at hp
        exact ih1 p hp
    | none =>
      simp only [herr] at hp
      cases hs : sliceTo it.read.buf it.read.n with
      | none => simp [hs, audioPayloads] at hp
      | some payload =>
        have hpl : payload.length ≤ bufSize := by
          unfold sliceTo at hs
          split at hs
          · injection hs with hs
            rw [← hs, List.length_take, hlit]
            exact Nat.min_le_right _ _
          · exact Option.noConfusion hs
        cases hse : it.sendErr <;> simp [hs, hse, audioPayloads] at hp <;>
          rcases hp with rfl | hp
        · exact hpl
        · exact ih1 p hp
        · exact hpl
        · exact ih1 p hp

/-! ## Claims on the forwarding goroutine -/

/-- C1: when the reads deliver chunks c1..ck without error, every send succeeds
and the next read reports io.EOF, the calls of the forwarding goroutine on the
stream are exactly Send(audio c1), ..., Send(audio ck), CloseSend in that order;
the whole trace is the start line, then a read followed by its send for each
chunk, then the io.EOF read and CloseSend; the concatenation of the payloads
sent is the concatenation of the chunks read; and the goroutine has stopped. -/
theorem forward_success_path (its : List Iteration) (last : Iteration) (post : List Iteration)
    (hok : ∀ it ∈ its, it.read.err = none ∧ it.sendErr = none)
    (hc : ∀ it ∈ its, ReadContract it.read)
    (heof : last.read.err = some Error.eof) :
    (forwarder (its ++ last :: post)).1.filter Event.onSendSide =
        its.map (fun it => Event.send (StreamingRecognizeRequest.audioContent (chunk it.read)))
          ++ [Event.closeSend]
    ∧ (forwarder (its ++ last :: post)).1 =
        Event.log LogLine.startSending ::
          (its.flatMap (fun it =>
            [Event.stdinRead it.read.n none,
             Event.send (StreamingRecognizeRequest.audioContent (chunk it.read))])
          ++ Event.stdinRead last.read.n (some Error.eof) :: Event.closeSend ::
            (match last.closeErr with
             | some e => [Event.log (LogLine.couldNotCloseStream e), Event.osExit 1]
             | none => []))
    ∧ (audioPayloads (forwarder (its ++ last :: post)).1).flatten =
        (its.map (fun it => chunk it.read)).flatten
    ∧ (forwarder (its ++ last :: post)).2 ≠ TaskStatus.running := by
  have hne : ∀ it ∈ its, it.read.err ≠ some Error.eof := by
    intro it hit h
    rw [(hok it hit).1] at h
    exact Option.noConfusion h
  have happ := forwardLoop_append its (last :: post) hne hc
  rw [forwardLoop_cons_eof last post heof, forwardLoop_allOk its hok hc] at happ
  have hfull : (forwarder (its ++ last :: post)).1 =
        Event.log LogLine.startSending ::
          (its.flatMap (fun it =>
            [Event.stdinRead it.read.n none,
             Event.send (StreamingRecognizeRequest.audioContent (chunk it.read))])
          ++ Event.stdinRead last.read.n (some Error.eof) :: Event.closeSend ::
            (match last.closeErr with
             | some e => [Event.log (LogLine.couldNotCloseStream e), Event.osExit 1]
             | none => [])) := by
    simp only [forwarder, happ]
  have hflat : ∀ l : List Iteration,
      (l.flatMap (fun it =>
            [Event.stdinRead it.read.n none,
             Event.send (StreamingRecognizeRequest.audioContent (chunk it.read))])).filter
          Event.onSendSide =
        l.map (fun it => Event.send (StreamingRecognizeRequest.audioContent (chunk it.read))) := by
    intro l
    induction l with
    | nil => rfl
    | cons a l ih =>
      simp only [List.flatMap_cons, List.map_cons, List.filter_append, ih]
      simp [List.filter, Event.onSendSide]
  have hpay : ∀ l : List Iteration,
      audioPayloads (l.flatMap (fun it =>
            [Event.stdinRead it.read.n none,
             Event.send (StreamingRecognizeRequest.audioContent (chunk it.read))])) =
        l.map (fun it => chunk it.read) := by
    intro l
    induction l with
    | nil => rfl
    | cons a l ih =>
      simp only [List.flatMap_cons, List.map_cons, audioPayloads_append, ih]
      simp [audioPayloads]
  refine ⟨?_, hfull, ?_, ?_⟩
  · rw [hfull]
    simp only [List.filter_cons, List.filter_append, hflat]
    cases last.closeErr <;> simp [Event.onSendSide]
  · rw [hfull]
    simp only [audioPayloads, audioPayloads_append, hpay]
    cases last.closeErr <;> simp [audioPayloads]
  · simp only [forwarder, happ]
    cases last.closeErr <;> simp

/-- Witness for C1: two chunks, then io.EOF. -/
theorem forward_success_path_witness :
    (forwarder ([okPass [1, 2], okPass [3]] ++ eofPass :: [])).1.filter Event.onSendSide =
        [okPass [1, 2], okPass [3]].map
          (fun it => Event.send (StreamingRecognizeRequest.audioContent (chunk it.read)))
          ++ [Event.closeSend]
    ∧ (audioPayloads (forwarder ([okPass [1, 2], okPass [3]] ++ eofPass :: [])).1).flatten =
        [1, 2, 3] := by
  have h := forward_success_path [okPass [1, 2], okPass [3]] eofPass []
    (by intro it hit; simp at hit; rcases hit with rfl | rfl <;> simp [okPass])
    (by
      intro it hit; simp at hit
      rcases hit with rfl | rfl <;> exact readContract_okPass _ (by simp [bufSize]))
    rfl
  refine ⟨h.1, ?_⟩
  rw [h.2.2.1]
  simp [chunk, okPass, bufferWith]

/-- C5: a read that returns an error other than io.EOF leads to no audio
message and no CloseSend for that read, to exactly one "Could not read from
stdin" line, and the loop goes on with the next read; the audio messages of the
whole run are exactly the chunks of the error-free reads carried out, in order. -/
theorem transient_read_error (pre : List Iteration) (it : Iteration) (post : List Iteration)
    (c : Nat)
    (hne : ∀ x ∈ pre, x.read.err ≠ some Error.eof)
    (hcpre : ∀ x ∈ pre, ReadContract x.read)
    (hcit : ReadContract it.read)
    (hcpost : ∀ x ∈ post, ReadContract x.read)
    (herr : it.read.err = some (Error.other c)) :
    forwardLoop (pre ++ it :: post) =
        ((forwardLoop pre).1 ++
           Event.stdinRead it.read.n (some (Error.other c)) ::
           Event.log (LogLine.couldNotReadStdin (Error.other c)) :: (forwardLoop post).1,
         (forwardLoop post).2)
    ∧ audioPayloads (forwardLoop (pre ++ it :: post)).1 =
        audioPayloads (forwardLoop pre).1 ++ audioPayloads (forwardLoop post).1
    ∧ audioPayloads (forwarder (pre ++ it :: post)).1 =
        ((beforeEof (pre ++ it :: post)).filter Iteration.readOk).map
          (fun x => chunk x.read) := by
  have h1 : forwardLoop (pre ++ it :: post) =
        ((forwardLoop pre).1 ++
           Event.stdinRead it.read.n (some (Error.other c)) ::
           Event.log (LogLine.couldNotReadStdin (Error.other c)) :: (forwardLoop post).1,
         (forwardLoop post).2) := by
    rw [forwardLoop_append pre _ hne hcpre, forwardLoop_cons_err it post c herr]
  refine ⟨h1, ?_, ?_⟩
  · rw [h1]
    simp [audioPayloads_append, audioPayloads]
  · have hall : ∀ x ∈ pre ++ it :: post, ReadContract x.read := by
      intro x hx
      rcases List.mem_append.1 hx with hx | hx
      · exact hcpre x hx
      · rcases List.mem_cons.1 hx with rfl | hx
        · exact hcit
        · exact hcpost x hx
    rw [← audioPayloads_forwardLoop _ hall]
    simp [forwarder, audioPayloads]

/-- Witness for C5: a chunk, a failed read that delivered two octets, a chunk. -/
theorem transient_read_error_witness :
    audioPayloads (forwarder ([okPass [1]] ++ errPass 5 [7, 8] :: [okPass [2]])).1 =
      ((beforeEof ([okPass [1]] ++ errPass 5 [7, 8] :: [okPass [2]])).filter
        Iteration.readOk).map (fun x => chunk x.read) :=
  (transient_read_error [okPass [1]] (errPass 5 [7, 8]) [okPass [2]] 5
    (by intro x hx; simp at hx; subst hx; simp [okPass])
    (by intro x hx; simp at hx; subst hx; exact readContract_okPass _ (by simp [bufSize]))
    (readContract_bufferWith _ _ (by simp [bufSize]))
    (by intro x hx; simp at hx; subst hx; exact readContract_okPass _ (by simp [bufSize]))
    rfl).2.2

/-- C6: when the send of an audio message fails, the goroutine writes one
"Could not send audio" line and goes on with the next read, the chunk is not
sent again; in every run of the goroutine the number of audio Send attempts
equals the number of reads that returned a nil error, whatever the sends return. -/
theorem send_error_no_retry (pre : List Iteration) (it : Iteration) (post : List Iteration)
    (e : Error)
    (hne : ∀ x ∈ pre, x.read.err ≠ some Error.eof)
    (hcpre : ∀ x ∈ pre, ReadContract x.read)
    (hcit : ReadContract it.read)
    (hok : it.read.err = none)
    (hsend : it.sendErr = some e) :
    forwardLoop (pre ++ it :: post) =
        ((forwardLoop pre).1 ++
           Event.stdinRead it.read.n none ::
           Event.send (StreamingRecognizeRequest.audioContent (chunk it.read)) ::
           Event.log (LogLine.couldNotSendAudio e) :: (forwardLoop post).1,
         (forwardLoop post).2)
    ∧ ∀ its : List Iteration, (∀ x ∈ its, ReadContract x.read) →
        ((forwarder its).1.filter Event.isAudioSend).length =
          ((forwarder its).1.filter Event.isOkRead).length := by
  constructor
  · rw [forwardLoop_append pre _ hne hcpre, forwardLoop_cons_ok it post hok hcit, hsend]
    simp
  · intro its hc
    simp only [forwarder, List.filter_cons, Event.isAudioSend, Event.isOkRead]
    simpa using sendCount_eq_okReadCount its hc

/-- Witness for C6: a chunk whose send fails, followed by a chunk whose send succeeds. -/
theorem send_error_no_retry_witness :
    forwardLoop ([] ++ failedSendPass [4, 5] (Error.other 1) :: [okPass [6]]) =
      ((forwardLoop []).1 ++
         Event.stdinRead (failedSendPass [4, 5] (Error.other 1)).read.n none ::
         Event.send (StreamingRecognizeRequest.audioContent
           (chunk (failedSendPass [4, 5] (Error.other 1)).read)) ::
         Event.log (LogLine.couldNotSendAudio (Error.other 1)) ::
         (forwardLoop [okPass [6]]).1,
       (forwardLoop [okPass [6]]).2) :=
  (send_error_no_retry [] (failedSendPass [4, 5] (Error.other 1)) [okPass [6]] (Error.other 1)
    (by simp) (by simp)
    (readContract_bufferWith _ _ (by simp [bufSize])) rfl rfl).1

theorem send_follows_read (its : List Iteration)
    (hc : ∀ it ∈ its, ReadContract it.read) :
    ∀ (a : List Event) (p : List Byte) (b : List Event),
      (forwardLoop its).1 =
          a ++ Event.send (StreamingRecognizeRequest.audioContent p) :: b →
        ∃ a0 x, x ∈ its ∧ x.read.err = none ∧ a = a0 ++ [Event.stdinRead x.read.n none]
          ∧ p = x.read.buf.take x.read.n.toNat := by
  induction its with
  | nil =>
    intro a p b h
    cases a <;> simp [forwardLoop] at h
  | cons it its ih =>
    have ih1 := ih (fun x hx => hc x (List.mem_cons_of_mem _ hx))
    have hcit := hc it (List.mem_cons_self _ _)
    have lift : ∀ (front a1 : List Event) (p : List Byte) (b : List Event),
        (forwardLoop its).1 =
            a1 ++ Event.send (StreamingRecognizeRequest.audioContent p) :: b →
          ∃ a0 x, x ∈ it :: its ∧ x.read.err = none
            ∧ front ++ a1 = a0 ++ [Event.stdinRead x.read.n none]
            ∧ p = x.read.buf.take x.read.n.toNat := by
      intro front a1 p b h
      obtain ⟨a0, x, hx, hxe, ha, hp⟩ := ih1 a1 p b h
      exact ⟨front ++ a0, x, List.mem_cons_of_mem _ hx, hxe, by rw [ha, List.append_assoc], hp⟩
    intro a p b h
    cases herr : it.read.err with
    | none =>
      rw [forwardLoop_cons_ok it its herr hcit] at h
      cases a with
      | nil => simp at h
      | cons x a =>
        cases a with
        | nil =>
          simp at h
          obtain ⟨hx, hp, _⟩ := h
          refine ⟨[], it, List.mem_cons_self _ _, herr, ?_, ?_⟩
          · simp [hx]
          · rw [← hp]; rfl
        | cons y a =>
          cases hse : it.sendErr with
          | none =>
            simp [hse] at h
            obtain ⟨hx, hy, h⟩ := h
            have := lift [x, y] a p b h
            simpa using this
          | some e =>
            simp [hse] at h
            obtain ⟨hx, hy, h⟩ := h
            cases a with
            | nil => simp at h
            | cons z a =>
              simp at h
              obtain ⟨hz, h⟩ := h
              have := lift [x, y, z] a p b h
              simpa using this
    | some e =>
      cases e with
      | eof =>
        rw [forwardLoop_cons_eof it its herr] at h
        have hmem : Event.send (StreamingRecognizeRequest.audioContent p) ∈
            Event.stdinRead it.read.n (some Error.eof) :: Event.closeSend ::
              (match it.closeErr with
               | some e => [Event.log (LogLine.couldNotCloseStream e), Event.osExit 1]
               | none => []) := by
          simp only at h
          rw [h]
          simp
        cases hce : it.closeErr <;> simp [hce] at hmem
      | other c =>
        rw [forwardLoop_cons_err it its c herr] at h
        cases a with
        | nil => simp at h
        | cons x a =>
          cases a with
          | nil => simp at h
          | cons y a =>
            simp at h
            obtain ⟨hx, hy, h⟩ := h
            have := lift [x, y] a p b h
            simpa using this

/-- C8: the read buffer has 1024 octets; after an error-free read that obeys
the read contract 0 <= n <= 1024 the slice buf[:n] is in bounds and has length
n, at most 1024; at any position of a run, the pass of such a read sends right
after the read a message that carries exactly the first n octets of the buffer;
in every run every audio message comes right after a nil-error read and carries
the first n octets of the buffer of that read, the payloads of the run are the
slices buf[:n] of the error-free reads carried out, in order, and every audio
payload has length at most 1024. -/
theorem chunk_within_buffer (pre : List Iteration) (it : Iteration) (post : List Iteration)
    (hne : ∀ x ∈ pre, x.read.err ≠ some Error.eof)
    (hcpre : ∀ x ∈ pre, ReadContract x.read)
    (hc : ReadContract it.read) (hok : it.read.err = none) :
    bufSize = 1024
    ∧ sliceTo it.read.buf it.read.n = some (it.read.buf.take it.read.n.toNat)
    ∧ (forwardLoop (it :: post)).1.take 2 =
        [Event.stdinRead it.read.n none,
         Event.send (StreamingRecognizeRequest.audioContent
           (it.read.buf.take it.read.n.toNat))]
    ∧ forwardLoop (pre ++ it :: post) =
        ((forwardLoop pre).1 ++
           Event.stdinRead it.read.n none ::
           Event.send (StreamingRecognizeRequest.audioContent
             (it.read.buf.take it.read.n.toNat)) ::
           ((match it.sendErr with
             | some e => [Event.log (LogLine.couldNotSendAudio e)]
             | none => []) ++ (forwardLoop post).1),
         (forwardLoop post).2)
    ∧ ((it.read.buf.take it.read.n.toNat).length : Int) = it.read.n
    ∧ (it.read.buf.take it.read.n.toNat).length ≤ 1024
    ∧ (∀ its : List Iteration, (∀ x ∈ its, ReadContract x.read) →
        audioPayloads (forwarder its).1 =
          ((beforeEof its).filter Iteration.readOk).map
            (fun x => x.read.buf.take x.read.n.toNat))
    ∧ (∀ its : List Iteration, (∀ x ∈ its, ReadContract x.read) →
        ∀ (a : List Event) (p : List Byte) (b : List Event),
          (forwarder its).1 =
              a ++ Event.send (StreamingRecognizeRequest.audioContent p) :: b →
            ∃ a0 x, x ∈ its ∧ x.read.err = none
              ∧ a = a0 ++ [Event.stdinRead x.read.n none]
              ∧ p = x.read.buf.take x.read.n.toNat
              ∧ (p.length : Int) = x.read.n ∧ p.length ≤ 1024)
    ∧ ∀ its : List Iteration, (∀ x ∈ its, x.read.buf.length = bufSize) →
        ∀ p ∈ audioPayloads (forwarder its).1, p.length ≤ 1024 := by
  have hlenOf : ∀ o : ReadOutcome, ReadContract o →
      (o.buf.take o.n.toNat).length = o.n.toNat ∧ o.n.toNat ≤ bufSize
        ∧ ((o.n.toNat : Nat) : Int) = o.n := by
    intro o ho
    obtain ⟨hl, h0, h1⟩ := ho
    refine ⟨?_, by omega, Int.toNat_of_nonneg h0⟩
    rw [List.length_take, hl]
    apply Nat.min_eq_left
    omega
  obtain ⟨hlen, hle, hcast⟩ := hlenOf it.read hc
  refine ⟨rfl, sliceTo_of_contract _ hc, ?_, ?_, ?_, ?_, ?_, ?_, ?_⟩
  · rw [forwardLoop_cons_ok it post hok hc]
    rfl
  · rw [forwardLoop_append pre _ hne hcpre, forwardLoop_cons_ok it post hok hc]
    simp only [chunk, List.append_assoc]
  · rw [hlen]
    exact hcast
  · rw [hlen]
    exact hle
  · intro its hcs
    have h := audioPayloads_forwardLoop its hcs
    simp only [forwarder, audioPayloads]
    exact h
  · intro its hcs a p b h
    cases a with
    | nil => simp [forwarder] at h
    | cons x a =>
      simp only [forwarder, List.cons_append, List.cons.injEq] at h
      obtain ⟨hx, h⟩ := h
      obtain ⟨a0, y, hy, hye, ha, hp⟩ := send_follows_read its hcs a p b h
      obtain ⟨hl1, hl2, hl3⟩ := hlenOf y.read (hcs y hy)
      refine ⟨x :: a0, y, hy, hye, by rw [ha]; rfl, hp, ?_, ?_⟩
      · rw [hp, hl1]
        exact hl3
      · rw [hp, hl1]
        exact hl2
  · intro its hls p hp
    have := audioPayloads_length_le its hls p (by simpa [forwarder, audioPayloads] using hp)
    exact this

/-- Witness for C8: two reads into the 1024-octet buffer; the payloads sent
are the slices of both reads. -/
theorem chunk_within_buffer_witness :
    sliceTo (okPass [3, 4]).read.buf (okPass [3, 4]).read.n =
      some ((okPass [3, 4]).read.buf.take (okPass [3, 4]).read.n.toNat)
    ∧ audioPayloads (forwarder [okPass [1, 2], okPass [3, 4]]).1 = [[1, 2], [3, 4]] := by
  have hc12 : ReadContract (okPass [1, 2]).read := readContract_okPass _ (by simp [bufSize])
  have hc34 : ReadContract (okPass [3, 4]).read := readContract_okPass _ (by simp [bufSize])
  have h := chunk_within_buffer [okPass [1, 2]] (okPass [3, 4]) []
    (by intro x hx; simp at hx; subst hx; simp [okPass])
    (by intro x hx; simp at hx; subst hx; exact hc12)
    hc34 rfl
  refine ⟨h.2.1, ?_⟩
  rw [h.2.2.2.2.2.2.1 [okPass [1, 2], okPass [3, 4]]
    (by
      intro x hx
      simp at hx
      rcases hx with rfl | rfl
      · exact hc12
      · exact hc34)]
  simp [beforeEof, Iteration.atEof, Iteration.readOk, okPass, bufferWith]

/-- C9: over any sequence of read outcomes obeying the read contract, the
goroutine calls CloseSend if and only if some read returns io.EOF, at most
once; when the first io.EOF read comes after the passes `pre`, the trace is
the trace of `pre` (which holds no CloseSend and no io.EOF read), that read,
CloseSend, and then no further read, Send or CloseSend, and the goroutine has
stopped; when no read returns io.EOF the goroutine has not called CloseSend
and is still running. -/
theorem closeSend_exactly_at_eof (its : List Iteration)
    (hc : ∀ it ∈ its, ReadContract it.read) :
    (Event.closeSend ∈ (forwarder its).1 ↔ ∃ it ∈ its, it.read.err = some Error.eof)
    ∧ (forwarder its).1.count Event.closeSend ≤ 1
    ∧ (∀ pre last post, its = pre ++ last :: post →
        (∀ x ∈ pre, x.read.err ≠ some Error.eof) → last.read.err = some Error.eof →
          (forwarder its).1 =
              (forwarder pre).1 ++
                Event.stdinRead last.read.n (some Error.eof) :: Event.closeSend ::
                  closeTail last
          ∧ Event.closeSend ∉ (forwarder pre).1
          ∧ (∀ n, Event.stdinRead n (some Error.eof) ∉ (forwarder pre).1)
          ∧ (∀ x ∈ closeTail last, x.isRead = false ∧ x.onSendSide = false)
          ∧ (forwarder its).1.count Event.closeSend = 1
          ∧ ((forwarder its).2 = TaskStatus.returned ∨ (forwarder its).2 = TaskStatus.exited))
    ∧ ((∀ it ∈ its, it.read.err ≠ some Error.eof) →
        Event.closeSend ∉ (forwarder its).1 ∧ (forwarder its).2 = TaskStatus.running) := by
  have hnone : ∀ l : List Iteration, Event.closeSend ∉ l.flatMap passEvents := by
    intro l hmem
    rcases List.mem_flatMap.1 hmem with ⟨x, _, hx⟩
    exact closeSend_not_mem_passEvents x hx
  have hcount0 : ∀ l : List Event, Event.closeSend ∉ l → l.count Event.closeSend = 0 :=
    fun l hl => List.count_eq_zero.2 hl
  have hrun : (∀ it ∈ its, it.read.err ≠ some Error.eof) →
      Event.closeSend ∉ (forwarder its).1 ∧ (forwarder its).2 = TaskStatus.running := by
    intro hne
    simp only [forwarder, forwardLoop_noEof its hne hc]
    exact ⟨by simpa using hnone its, trivial⟩
  have hsplit : ∀ pre last post, its = pre ++ last :: post →
      (∀ x ∈ pre, x.read.err ≠ some Error.eof) → last.read.err = some Error.eof →
        (forwarder its).1 =
            (forwarder pre).1 ++
              Event.stdinRead last.read.n (some Error.eof) :: Event.closeSend ::
                closeTail last
        ∧ Event.closeSend ∉ (forwarder pre).1
        ∧ (∀ n, Event.stdinRead n (some Error.eof) ∉ (forwarder pre).1)
        ∧ (∀ x ∈ closeTail last, x.isRead = false ∧ x.onSendSide = false)
        ∧ (forwarder its).1.count Event.closeSend = 1
        ∧ ((forwarder its).2 = TaskStatus.returned ∨ (forwarder its).2 = TaskStatus.exited) := by
    intro pre last post hits hne heof
    have hcpre : ∀ x ∈ pre, ReadContract x.read := by
      intro x hx
      exact hc x (by rw [hits]; exact List.mem_append_left _ hx)
    have hpre : Event.closeSend ∉ (forwarder pre).1 := by
      simp only [forwarder, forwardLoop_noEof pre hne hcpre]
      simpa using hnone pre
    have htail : Event.closeSend ∉ closeTail last := by
      intro hmem
      have := (closeTail_quiet last _ hmem).2
      simp [Event.onSendSide] at this
    have hev : (forwarder its).1 =
        (forwarder pre).1 ++
          Event.stdinRead last.read.n (some Error.eof) :: Event.closeSend ::
            closeTail last := by
      simp only [forwarder, hits, forwardLoop_split pre last post hne hcpre heof,
        forwardLoop_noEof pre hne hcpre, List.cons_append]
    have hnoEof : ∀ n, Event.stdinRead n (some Error.eof) ∉ (forwarder pre).1 := by
      intro n hmem
      simp only [forwarder, forwardLoop_noEof pre hne hcpre] at hmem
      rcases List.mem_cons.1 hmem with h | h
      · exact Event.noConfusion h
      · rcases List.mem_flatMap.1 h with ⟨x, hx, hxe⟩
        exact eofRead_not_mem_passEvents x (hne x hx) n hxe
    refine ⟨hev, hpre, hnoEof, closeTail_quiet last, ?_, ?_⟩
    · rw [hev, List.count_append, hcount0 _ hpre, List.count_cons, List.count_cons,
        hcount0 _ htail]
      simp
    · simp only [forwarder, hits, forwardLoop_split pre last post hne hcpre heof]
      cases last.closeErr <;> simp
  refine ⟨?_, ?_, hsplit, hrun⟩
  · constructor
    · intro hmem
      by_contra hno
      have hne : ∀ it ∈ its, it.read.err ≠ some Error.eof := by
        intro it hit h
        exact hno ⟨it, hit, h⟩
      exact (hrun hne).1 hmem
    · rintro ⟨it, hit, h⟩
      rcases firstEof_split its with hne | ⟨pre, last, post, hits, hne, heof⟩
      · exact absurd h (hne it hit)
      · rw [(hsplit pre last post hits hne heof).1]
        simp
  · rcases firstEof_split its with hne | ⟨pre, last, post, hits, hne, heof⟩
    · rw [hcount0 _ (hrun hne).1]
      exact Nat.zero_le _
    · rw [(hsplit pre last post hits hne heof).2.2.2.2.1]

/-- Witness for C9: a chunk, a failed read, io.EOF, and an outcome that is never used. -/
theorem closeSend_exactly_at_eof_witness :
    (forwarder [okPass [1], errPass 3 [], eofPass, okPass [2]]).1.count Event.closeSend ≤ 1
    ∧ (Event.closeSend ∈ (forwarder [okPass [1], errPass 3 [], eofPass, okPass [2]]).1 ↔
        ∃ it ∈ [okPass [1], errPass 3 [], eofPass, okPass [2]],
          it.read.err = some Error.eof) :=
  have h := closeSend_exactly_at_eof [okPass [1], errPass 3 [], eofPass, okPass [2]]
    (by
      intro it hit
      simp at hit
      rcases hit with rfl | rfl | rfl | rfl
      · exact readContract_okPass _ (by simp [bufSize])
      · exact readContract_bufferWith _ _ (by simp [bufSize])
      · exact readContract_eofPass
      · exact readContract_okPass _ (by simp [bufSize]))
  ⟨h.2.1, h.1⟩

/-- C10: octets delivered together with an error are dropped: a read that
returns io.EOF or any other error, whatever its count, adds no audio message;
an error-free read with count 0 adds one audio message with an empty payload;
so the concatenation of the payloads sent is the concatenation of the octets
returned by the error-free reads carried out. -/
theorem bytes_with_error_dropped (pre : List Iteration) (it : Iteration)
    (post : List Iteration)
    (hne : ∀ x ∈ pre, x.read.err ≠ some Error.eof)
    (hcpre : ∀ x ∈ pre, ReadContract x.read)
    (hcit : ReadContract it.read)
    (hcpost : ∀ x ∈ post, ReadContract x.read) :
    (it.read.err = some Error.eof →
        audioPayloads (forwardLoop (pre ++ it :: post)).1 = audioPayloads (forwardLoop pre).1)
    ∧ (∀ c, it.read.err = some (Error.other c) →
        audioPayloads (forwardLoop (pre ++ it :: post)).1 =
          audioPayloads (forwardLoop pre).1 ++ audioPayloads (forwardLoop post).1)
    ∧ (it.read.err = none → it.read.n = 0 →
        audioPayloads (forwardLoop (pre ++ it :: post)).1 =
          audioPayloads (forwardLoop pre).1 ++ [] :: audioPayloads (forwardLoop post).1)
    ∧ (audioPayloads (forwarder (pre ++ it :: post)).1).flatten =
        (((beforeEof (pre ++ it :: post)).filter Iteration.readOk).map
          (fun x => chunk x.read)).flatten := by
  have happ := forwardLoop_append pre (it :: post) hne hcpre
  refine ⟨?_, ?_, ?_, ?_⟩
  · intro heof
    rw [happ, forwardLoop_cons_eof it post heof]
    cases it.closeErr <;> simp [audioPayloads_append, audioPayloads]
  · intro c herr
    rw [happ, forwardLoop_cons_err it post c herr]
    simp [audioPayloads_append, audioPayloads]
  · intro hok hn
    rw [happ, forwardLoop_cons_ok it post hok hcit]
    have hch : chunk it.read = [] := by simp [chunk, hn]
    cases it.sendErr <;> simp [audioPayloads_append, audioPayloads, hch]
  · have hall : ∀ x ∈ pre ++ it :: post, ReadContract x.read := by
      intro x hx
      rcases List.mem_append.1 hx with hx | hx
      · exact hcpre x hx
      · rcases List.mem_cons.1 hx with rfl | hx
        · exact hcit
        · exact hcpost x hx
    rw [← audioPayloads_forwardLoop _ hall]
    simp [forwarder, audioPayloads]

/-- Witness for C10: a chunk, then a read that delivers two octets together with io.EOF. -/
theorem bytes_with_error_dropped_witness :
    audioPayloads (forwardLoop ([okPass [1]] ++ eofPassWith [7, 8] :: [])).1 =
      audioPayloads (forwardLoop [okPass [1]]).1 :=
  (bytes_with_error_dropped [okPass [1]] (eofPassWith [7, 8]) []
    (by intro x hx; simp at hx; subst hx; simp [okPass])
    (by intro x hx; simp at hx; subst hx; exact readContract_okPass _ (by simp [bufSize]))
    (readContract_bufferWith _ _ (by simp [bufSize]))
    (by simp)).1 rfl

/-! ## Lemmas on the receive loop -/

theorem printAlternatives_eq (alts : List SpeechRecognitionAlternative) (out : List Event) :
    printAlternatives alts out =
      out ++ alts.map (fun a => Event.log (LogLine.got a.transcript a.confidence)) := by
  induction alts generalizing out with
  | nil => simp [printAlternatives]
  | cons a alts ih => simp [printAlternatives, ih]

theorem printResults_eq (results : List StreamingRecognitionResult) (out : List Event) :
    printResults results out = out ++ expectedLines results := by
  induction results generalizing out with
  | nil => simp [printResults, expectedLines]
  | cons r results ih =>
    unfold printResults
    by_cases h : r.isFinal
    · simp [h, ih, printAlternatives_eq, expectedLines]
    · simp [h, ih, expectedLines]

theorem recvLoop_cons_ok (o : RecvOutcome) (rest : List RecvOutcome)
    (h1 : o.err = none) (h2 : o.resp.error = none) :
    recvLoop (o :: rest) =
      (Event.recv :: expectedLines o.resp.results ++ (recvLoop rest).1, (recvLoop rest).2) := by
  conv_lhs => unfold recvLoop
  simp [h1, h2, printResults_eq]

theorem recvLoop_append (pre rest : List RecvOutcome)
    (hpre : ∀ o ∈ pre, o.err = none ∧ o.resp.error = none) :
    recvLoop (pre ++ rest) =
      (pre.flatMap (fun o => Event.recv :: expectedLines o.resp.results) ++ (recvLoop rest).1,
        (recvLoop rest).2) := by
  induction pre with
  | nil => simp
  | cons o pre ih =>
    have ih1 := ih (fun x hx => hpre x (List.mem_cons_of_mem _ hx))
    obtain ⟨h1, h2⟩ := hpre o (List.mem_cons_self _ _)
    rw [List.cons_append, recvLoop_cons_ok o _ h1 h2, ih1]
    simp

theorem expectedLines_length (results : List StreamingRecognitionResult) :
    (expectedLines results).length =
      (results.map (fun r => if r.isFinal then r.alternatives.length else 1)).sum := by
  induction results with
  | nil => rfl
  | cons r results ih =>
    have hcons : expectedLines (r :: results) =
        expectedLines [r] ++ expectedLines results := by
      simp [expectedLines]
    rw [hcons, List.length_append, ih]
    by_cases h : r.isFinal <;> simp [expectedLines, h]

/-! ## Claims on the receive loop -/

/-- C3: for a received response whose Error field is unset, the loop prints,
for each result in the order of resp.Results, one "GOT" line per alternative
in order (transcript and confidence) and no dump when the result is final, and
exactly one dump line of the result when it is not final; the number of lines
is the sum over the results of (number of alternatives if final, else 1); a
final result without alternatives prints nothing. -/
theorem print_one_response (o : RecvOutcome) (rest : List RecvOutcome)
    (h1 : o.err = none) (h2 : o.resp.error = none) :
    (recvLoop (o :: rest)).1 =
        Event.recv ::
          (o.resp.results.flatMap (fun result =>
            if result.isFinal then
              result.alternatives.map (fun a => Event.log (LogLine.got a.transcript a.confidence))
            else [Event.log (LogLine.receive result)])
          ++ (recvLoop rest).1)
    ∧ (printResults o.resp.results []).length =
        (o.resp.results.map (fun r => if r.isFinal then r.alternatives.length else 1)).sum
    ∧ ∀ r : StreamingRecognitionResult, r.isFinal = true → r.alternatives = [] →
        printResults [r] [] = [] := by
  refine ⟨?_, ?_, ?_⟩
  · rw [recvLoop_cons_ok o rest h1 h2]
    simp [expectedLines]
  · rw [printResults_eq, List.nil_append, expectedLines_length]
  · intro r hf ha
    rw [printResults_eq]
    simp [expectedLines, hf, ha]

/-- Witness for C3: a response with an interim result followed by a final one. -/
theorem print_one_response_witness :
    (recvLoop (okResponse [interimHel, finalHello] :: [])).1 =
      [Event.recv, Event.log (LogLine.receive interimHel), Event.log (LogLine.got "hello" 97)] := by
  have h := (print_one_response (okResponse [interimHel, finalHello]) [] rfl rfl).1
  rw [h]
  simp [okResponse, interimHel, finalHello, recvLoop]

/-- C4: the receive loop goes through every response that has no error,
printing its results in the order received, and stops at the first outcome that
is io.EOF (main returns, exit status 0), a non-EOF error (fatal line, exit
status 1) or a response with Error set (fatal line, exit status 1, none of its
results printed); while no such outcome has come the loop is still running. -/
theorem recv_loop_exit (pre : List RecvOutcome) (o : RecvOutcome) (post : List RecvOutcome)
    (hpre : ∀ p ∈ pre, p.err = none ∧ p.resp.error = none) :
    recvLoop pre =
        (pre.flatMap (fun p => Event.recv :: expectedLines p.resp.results), TaskStatus.running)
    ∧ (o.err = some Error.eof →
        recvLoop (pre ++ o :: post) =
          (pre.flatMap (fun p => Event.recv :: expectedLines p.resp.results) ++
              [Event.recv, Event.osExit 0],
            TaskStatus.returned))
    ∧ (∀ c, o.err = some (Error.other c) →
        recvLoop (pre ++ o :: post) =
          (pre.flatMap (fun p => Event.recv :: expectedLines p.resp.results) ++
              [Event.recv, Event.log (LogLine.cannotStreamResults (Error.other c)),
               Event.osExit 1],
            TaskStatus.exited))
    ∧ (∀ st, o.err = none → o.resp.error = some st →
        recvLoop (pre ++ o :: post) =
          (pre.flatMap (fun p => Event.recv :: expectedLines p.resp.results) ++
              [Event.recv, Event.log (LogLine.couldNotRecognize st), Event.osExit 1],
            TaskStatus.exited)) := by
  refine ⟨?_, ?_, ?_, ?_⟩
  · have h := recvLoop_append pre [] hpre
    rw [List.append_nil] at h
    rw [h]
    simp [recvLoop]
  · intro heof
    rw [recvLoop_append pre _ hpre]
    unfold recvLoop
    simp [heof]
  · intro c herr
    rw [recvLoop_append pre _ hpre]
    unfold recvLoop
    simp [herr]
  · intro st herr hst
    rw [recvLoop_append pre _ hpre]
    unfold recvLoop
    simp [herr, hst]

/-- Witness for C4: one response, then io.EOF, then an outcome that is never received. -/
theorem recv_loop_exit_witness :
    recvLoop ([okResponse [finalHello]] ++ failedRecv Error.eof :: [okResponse [interimHel]]) =
      ([okResponse [finalHello]].flatMap (fun p => Event.recv :: expectedLines p.resp.results) ++
          [Event.recv, Event.osExit 0],
        TaskStatus.returned) :=
  (recv_loop_exit [okResponse [finalHello]] (failedRecv Error.eof) [okResponse [interimHel]]
    (by intro p hp; simp at hp; subst hp; exact ⟨rfl, rfl⟩)).2.1 rfl

/-! ## Lemmas on the whole program -/

theorem mem_runTasks (sched : List Bool) (fwd mn : List Event) :
    ∀ e ∈ runTasks sched fwd mn, e ∈ fwd ∨ e ∈ mn := by
  induction sched generalizing fwd mn with
  | nil => intro e he; simp [runTasks] at he
  | cons b sched ih =>
    intro e he
    cases b with
    | true =>
      cases fwd with
      | nil =>
        simp only [runTasks] at he
        exact ih [] mn e he
      | cons x fwd =>
        simp only [runTasks] at he
        split at he
        · simp at he
          left; rw [he]; exact List.mem_cons_self _ _
        · rcases List.mem_cons.1 he with rfl | he
          · left; exact List.mem_cons_self _ _
          · rcases ih fwd mn e he with h | h
            · left; exact List.mem_cons_of_mem _ h
            · right; exact h
    | false =>
      cases mn with
      | nil =>
        simp only [runTasks] at he
        exact ih fwd [] e he
      | cons x mn =>
        simp only [runTasks] at he
        split at he
        · simp at he
          right; rw [he]; exact List.mem_cons_self _ _
        · rcases List.mem_cons.1 he with rfl | he
          · right; exact List.mem_cons_self _ _
          · rcases ih fwd mn e he with h | h
            · left; exact h
            · right; exact List.mem_cons_of_mem _ h

theorem mem_sentRequests (l : List Event) (r : StreamingRecognizeRequest)
    (h : r ∈ sentRequests l) : Event.send r ∈ l := by
  induction l with
  | nil => simp [sentRequests] at h
  | cons e l ih =>
    cases e with
    | send q =>
      simp only [sentRequests] at h
      rcases List.mem_cons.1 h with rfl | h
      · exact List.mem_cons_self _ _
      · exact List.mem_cons_of_mem _ (ih h)
    | _ =>
      simp only [sentRequests] at h
      exact List.mem_cons_of_mem _ (ih h)

theorem forwardLoop_sends_audio (its : List Iteration) (r : StreamingRecognizeRequest)
    (h : Event.send r ∈ (forwardLoop its).1) : ∃ p, r = StreamingRecognizeRequest.audioContent p := by
  induction its with
  | nil => simp [forwardLoop] at h
  | cons it its ih =>
    unfold forwardLoop at h
    cases herr : it.read.err with
    | some e =>
      cases e with
      | eof =>
        simp only [herr, if_true] at h
        cases hce : it.closeErr <;> simp [hce] at h
      | other c =>
        simp [herr] at h
        exact ih h
    | none =>
      simp only [herr] at h
      cases hs : sliceTo it.read.buf it.read.n with
      | none => simp [hs] at h
      | some payload =>
        cases hse : it.sendErr <;> simp [hs, hse] at h <;> rcases h with h | h
        · exact ⟨payload, h⟩
        · exact ih h
        · exact ⟨payload, h⟩
        · exact ih h

theorem expectedLines_are_lines (results : List StreamingRecognitionResult) :
    ∀ e ∈ expectedLines results, ∃ l, e = Event.log l := by
  intro e he
  simp only [expectedLines, List.mem_flatMap] at he
  obtain ⟨r, _, hr⟩ := he
  by_cases hf : r.isFinal
  · simp [hf] at hr
    obtain ⟨a, _, ha⟩ := hr
    exact ⟨_, ha.symm⟩
  · simp [hf] at hr
    exact ⟨_, hr⟩

theorem recvLoop_sends_nothing (rs : List RecvOutcome) (r : StreamingRecognizeRequest) :
    Event.send r ∉ (recvLoop rs).1 := by
  induction rs with
  | nil => simp [recvLoop]
  | cons o rs ih =>
    unfold recvLoop
    cases herr : o.err with
    | some e => cases e <;> simp
    | none =>
      cases hst : o.resp.error with
      | some st => simp
      | none =>
        simp [printResults_eq]
        refine ⟨?_, ih⟩
        intro hmem
        obtain ⟨l, hl⟩ := expectedLines_are_lines _ _ hmem
        exact Event.noConfusion hl

/-! ## Claims on the whole program -/

/-- C2: in every run in which the client and the stream are opened, whatever the
scheduling, the first message handed to Send is the configuration message with
encoding LINEAR16, sample rate 16000, language "en-US", SingleUtterance false
and InterimResults true; every other message handed to Send in the run is an
audio-content message, so exactly one configuration message is sent and no
audio comes before it. -/
theorem handshake_first (env : Env) (h1 : env.clientErr = none) (h2 : env.streamErr = none) :
    initialConfig.config.encoding = AudioEncoding.linear16
    ∧ initialConfig.config.sampleRateHertz = 16000
    ∧ initialConfig.config.languageCode = "en-US"
    ∧ initialConfig.singleUtterance = false
    ∧ initialConfig.interimResults = true
    ∧ ∃ rest, sentRequests (main env) =
          StreamingRecognizeRequest.streamingConfig initialConfig :: rest
        ∧ ∀ r ∈ rest, ∃ p, r = StreamingRecognizeRequest.audioContent p := by
  refine ⟨rfl, rfl, rfl, rfl, rfl, ?_⟩
  cases h3 : env.configErr with
  | some e =>
    refine ⟨[], ?_, by simp⟩
    simp [main, h1, h2, h3, sentRequests]
  | none =>
    refine ⟨sentRequests (runTasks env.schedule (forwarder env.iterations).1
      (recvLoop env.recvs).1), ?_, ?_⟩
    · simp [main, h1, h2, h3, sentRequests]
    · intro r hr
      rcases mem_runTasks _ _ _ _ (mem_sentRequests _ r hr) with h | h
      · simp only [forwarder] at h
        rcases List.mem_cons.1 h with h | h
        · exact Event.noConfusion h
        · exact forwardLoop_sends_audio _ r h
      · exact absurd h (recvLoop_sends_nothing _ r)

/-- Witness for C2: a complete run with one chunk and one interim result. -/
theorem handshake_first_witness :
    ∃ rest, sentRequests (main sampleEnv) =
        StreamingRecognizeRequest.streamingConfig initialConfig :: rest
      ∧ ∀ r ∈ rest, ∃ p, r = StreamingRecognizeRequest.audioContent p :=
  (handshake_first sampleEnv rfl rfl).2.2.2.2.2

/-- C7: when creating the client, opening the stream or sending the
configuration message fails, the run ends there with the fatal line and exit
status 1: the `go` statement is never reached, and the trace holds no stdin
read, no audio-content Send, no CloseSend and no Recv, whatever the inputs and
the scheduling would have been. -/
theorem startup_failure_is_fatal (env : Env)
    (h : env.clientErr ≠ none ∨ env.streamErr ≠ none ∨ env.configErr ≠ none) :
    (∀ e, env.clientErr = some e →
        main env = [Event.newClient, Event.log (LogLine.fatalErr e), Event.osExit 1])
    ∧ (∀ e, env.clientErr = none → env.streamErr = some e →
        main env = [Event.newClient, Event.streamingRecognize,
          Event.log (LogLine.fatalErr e), Event.osExit 1])
    ∧ (∀ e, env.clientErr = none → env.streamErr = none → env.configErr = some e →
        main env = [Event.newClient, Event.streamingRecognize,
          Event.stderrWrite "sending init StreamingConfig...\n",
          Event.send (StreamingRecognizeRequest.streamingConfig initialConfig),
          Event.log (LogLine.fatalErr e), Event.osExit 1])
    ∧ Event.go ∉ main env
    ∧ (∀ x ∈ main env, x.isRead = false ∧ x.isAudioSend = false
        ∧ x ≠ Event.closeSend ∧ x ≠ Event.recv)
    ∧ (main env).getLast? = some (Event.osExit 1) := by
  refine ⟨?_, ?_, ?_, ?_⟩
  · intro e he
    simp [main, he]
  · intro e h1 he
    simp [main, h1, he]
  · intro e h1 h2 he
    simp [main, h1, h2, he]
  · cases h1 : env.clientErr with
    | some e => simp [main, h1, Event.isRead, Event.isAudioSend]
    | none =>
      cases h2 : env.streamErr with
      | some e => simp [main, h1, h2, Event.isRead, Event.isAudioSend]
      | none =>
        cases h3 : env.configErr with
        | some e => simp [main, h1, h2, h3, Event.isRead, Event.isAudioSend]
        | none => simp [h1, h2, h3] at h

/-- Witness for C7: opening the stream fails although stdin and the service have data. -/
theorem startup_failure_is_fatal_witness :
    main brokenStreamEnv =
      [Event.newClient, Event.streamingRecognize,
        Event.log (LogLine.fatalErr (Error.other 14)), Event.osExit 1] :=
  (startup_failure_is_fatal brokenStreamEnv (Or.inr (Or.inl (by simp [brokenStreamEnv])))).2.1
    (Error.other 14) rfl rfl

end Livecaption
